import Mathlib

/-!
# CropSense retrieval engine — verification of the specification against the code

Shallow embedding of the core retrieval/orchestration engine of the CropSense
repository (`packages/rag/`): the query cache (`cache.py`), the chunker and
chunk-id generator (`ingestion.py`), the vector store's batched upsert and
cosine similarity (`vector_store.py`), the retriever's parameter defaulting
(`retriever.py`), and the generation orchestrator with rate limiting and
response caching (`gemini_service.py`).

Conventions of the embedding:
* Machine integers and timestamps are `Nat`; similarity scores are `ℚ`
  except where IEEE-754 special values matter, where an explicit float model
  `FloatM` (finite rationals plus `nan`/`inf`) is used.
* Python dicts that live in Firestore are association lists `List (String × β)`
  updated in place by `aset`; the Firestore client and network are elided, a
  commit either succeeds or fails according to an explicit oracle.
* Python's `OrderedDict` is a `List (key × value)` whose head is the oldest
  position (`popitem(last=False)` = `List.tail`, `move_to_end` = erase + append).
* MD5 hashing of cache keys (`hashlib.md5(...).hexdigest()`) is abstracted to
  the un-hashed key string itself (`_hash_key` keeps the normalization and the
  `query:filters` concatenation); none of the claims depend on the hash.
* Fallible code returns `Except`; exceptions that the source swallows inside
  its own `try/except` (fail-open paths) are modelled by their fallback value.
-/

/-! ## Association-list primitives (Python `dict` / Firestore document ops) -/

/-- First-match lookup in an association list (Python `d[k]` / Firestore get). -/
def lookupKey {β : Type} : List (String × β) → String → Option β
  | [], _ => none
  | (k', v) :: rest, k => if k' = k then some v else lookupKey rest k

/-- Dict assignment `d[k] = v`: replace in place if the key is present,
append at the end otherwise (Python dict / `OrderedDict` assignment). -/
def aset {β : Type} : List (String × β) → String → β → List (String × β)
  | [], k, v => [(k, v)]
  | (k', v') :: rest, k, v =>
    if k' = k then (k, v) :: rest else (k', v') :: aset rest k v

theorem lookupKey_aset {β : Type} (l : List (String × β)) (k : String) (v : β) :
    lookupKey (aset l k v) k = some v := by
  induction l with
  | nil => simp [aset, lookupKey]
  | cons p rest ih =>
    by_cases h : p.1 = k
    · simp [aset, lookupKey, h]
    · simp [aset, lookupKey, h, ih]

theorem lookupKey_aset_ne {β : Type} (l : List (String × β)) (k k' : String) (v : β)
    (h : k ≠ k') : lookupKey (aset l k v) k' = lookupKey l k' := by
  induction l with
  | nil => simp [aset, lookupKey, h]
  | cons p rest ih =>
    by_cases hp : p.1 = k
    · simp [aset, lookupKey, hp, h]
    · simp [aset, lookupKey, hp, ih]

theorem aset_of_absent {β : Type} (l : List (String × β)) (k : String) (v : β)
    (h : lookupKey l k = none) : aset l k v = l ++ [(k, v)] := by
  induction l with
  | nil => simp [aset]
  | cons p rest ih =>
    by_cases hp : p.1 = k
    · simp [lookupKey, hp] at h
    · simp [lookupKey, hp] at h
      simp [aset, hp, ih h]

theorem length_aset_absent {β : Type} (l : List (String × β)) (k : String) (v : β)
    (h : lookupKey l k = none) : (aset l k v).length = l.length + 1 := by
  rw [aset_of_absent l k v h]; simp

theorem length_aset_present {β : Type} (l : List (String × β)) (k : String) (v e : β)
    (h : lookupKey l k = some e) : (aset l k v).length = l.length := by
  induction l with
  | nil => simp [lookupKey] at h
  | cons p rest ih =>
    by_cases hp : p.1 = k
    · simp [aset, hp]
    · simp [lookupKey, hp] at h
      simp [aset, hp, ih h]

/-! ## Query cache (`packages/rag/cache.py`, class `QueryCache`)

The source keeps an `OrderedDict[str, {"result", "timestamp"}]`; the model is
a list whose **head is the oldest position**.  `_normalize_query` lowercases
and strips; `_hash_key` joins the normalized query with the canonically
serialized filters (the MD5 digest is abstracted away, see the header). -/

/-- One cached entry: `{"result": ..., "timestamp": ...}`. -/
structure CacheEntry (α : Type) where
  result : α
  timestamp : Nat
deriving DecidableEq, Repr

/-- `QueryCache.__init__` state: the ordered dict plus configuration/stats. -/
structure QueryCache (α : Type) where
  cache : List (String × CacheEntry α)
  maxsize : Nat
  ttl_seconds : Nat
  hits : Nat
  misses : Nat
deriving DecidableEq, Repr

/-- Python `str.strip()` at the character-list level (leading and trailing
whitespace removed). -/
def trimChars (l : List Char) : List Char :=
  ((l.dropWhile Char.isWhitespace).reverse.dropWhile Char.isWhitespace).reverse

/-- Python `s.strip()`. -/
def pyStrip (s : String) : String := String.mk (trimChars s.data)

/-- Python `s.lower()` (ASCII case mapping). -/
def pyLower (s : String) : String := String.mk (s.data.map Char.toLower)

/-- `_normalize_query`: lowercase and strip (`query.lower().strip()`). -/
def normalizeQuery (query : String) : String := pyStrip (pyLower query)

/-- `_hash_key`: normalized query joined with the canonical filter string
(`json.dumps(filters, sort_keys=True)` is taken as an opaque string argument;
the MD5 digest of the joined key is abstracted away). -/
def hashKey (query filterStr : String) : String :=
  normalizeQuery query ++ ":" ++ filterStr

/-- `del self.cache[key]` (the key occurs at most once). -/
def eraseKey {β : Type} (l : List (String × β)) (k : String) : List (String × β) :=
  l.filter (fun p => p.1 ≠ k)

/-- `OrderedDict.move_to_end(key)`: re-append the entry at the most-recent end.
Only called when the key is present. -/
def moveToEnd {β : Type} (l : List (String × β)) (k : String) : List (String × β) :=
  match lookupKey l k with
  | none => l
  | some v => eraseKey l k ++ [(k, v)]

/-- `QueryCache.get`: miss if absent; miss-and-delete if expired
(`time.time() - entry["timestamp"] > self.ttl_seconds`); otherwise bump
recency (`move_to_end`) and return the stored result. -/
def cacheGet {α : Type} (now : Nat) (c : QueryCache α) (query filterStr : String) :
    Option α × QueryCache α :=
  let key := hashKey query filterStr
  match lookupKey c.cache key with
  | none => (none, { c with misses := c.misses + 1 })
  | some entry =>
    if c.ttl_seconds < now - entry.timestamp then
      (none, { c with cache := eraseKey c.cache key, misses := c.misses + 1 })
    else
      (some entry.result,
       { c with cache := moveToEnd c.cache key, hits := c.hits + 1 })

/-- `QueryCache.set`: if the store is at capacity (`len >= maxsize`) and the
key is new, `popitem(last=False)` drops the oldest position (the list head);
then assign and `move_to_end`.  (`popitem` on an empty dict would raise; that
is unreachable for `maxsize ≥ 1` under the size invariant.) -/
def cacheSet {α : Type} (now : Nat) (c : QueryCache α) (query : String) (result : α)
    (filterStr : String) : QueryCache α :=
  let key := hashKey query filterStr
  let cache1 :=
    if c.maxsize ≤ c.cache.length ∧ (lookupKey c.cache key).isNone then
      c.cache.tail
    else c.cache
  let cache2 := aset cache1 key ⟨result, now⟩
  { c with cache := moveToEnd cache2 key }

/-- `QueryCache.clear`. -/
def cacheClear {α : Type} (c : QueryCache α) : QueryCache α :=
  { c with cache := [], hits := 0, misses := 0 }

/-! ### Basic facts about the ordered-dict model -/

theorem lookupKey_eq_none_of_not_mem {β : Type} (l : List (String × β)) (k : String)
    (h : k ∉ l.map Prod.fst) : lookupKey l k = none := by
  induction l with
  | nil => rfl
  | cons p rest ih =>
    simp only [List.map_cons, List.mem_cons] at h
    push_neg at h
    have hp : ¬ p.1 = k := fun he => h.1 he.symm
    simp [lookupKey, hp, ih h.2]

theorem lookupKey_append_of_none {β : Type} (l1 l2 : List (String × β)) (k : String)
    (h : lookupKey l1 k = none) : lookupKey (l1 ++ l2) k = lookupKey l2 k := by
  induction l1 with
  | nil => rfl
  | cons p rest ih =>
    by_cases hp : p.1 = k
    · simp [lookupKey, hp] at h
    · simp [lookupKey, hp] at h ⊢
      exact ih h

theorem eraseKey_of_absent {β : Type} (l : List (String × β)) (k : String)
    (h : lookupKey l k = none) : eraseKey l k = l := by
  induction l with
  | nil => rfl
  | cons p rest ih =>
    by_cases hp : p.1 = k
    · simp [lookupKey, hp] at h
    · simp [lookupKey, hp] at h
      show List.filter _ (p :: rest) = p :: rest
      rw [List.filter_cons_of_pos (by simp [hp])]
      exact congrArg (p :: ·) (ih h)

theorem eraseKey_append {β : Type} (l1 l2 : List (String × β)) (k : String) :
    eraseKey (l1 ++ l2) k = eraseKey l1 k ++ eraseKey l2 k := by
  simp [eraseKey, List.filter_append]

theorem eraseKey_aset {β : Type} (l : List (String × β)) (k : String) (v : β) :
    eraseKey (aset l k v) k = eraseKey l k := by
  induction l with
  | nil => simp [aset, eraseKey]
  | cons p rest ih =>
    by_cases hp : p.1 = k
    · simp [aset, eraseKey, List.filter_cons, hp]
    · simp [aset, eraseKey, List.filter_cons, hp] at ih ⊢
      exact ih

theorem map_fst_eraseKey {β : Type} (l : List (String × β)) (k : String) :
    (eraseKey l k).map Prod.fst = (l.map Prod.fst).filter (fun x => x ≠ k) := by
  induction l with
  | nil => rfl
  | cons p rest ih =>
    by_cases hp : p.1 = k
    · simp [eraseKey, List.filter_cons, hp] at ih ⊢
      exact ih
    · simp [eraseKey, List.filter_cons, hp] at ih ⊢
      exact ih

theorem length_eraseKey_of_present {β : Type} (l : List (String × β)) (k : String) (v : β)
    (hnd : (l.map Prod.fst).Nodup) (h : lookupKey l k = some v) :
    (eraseKey l k).length + 1 = l.length := by
  induction l with
  | nil => simp [lookupKey] at h
  | cons p rest ih =>
    simp only [List.map_cons, List.nodup_cons] at hnd
    by_cases hp : p.1 = k
    · have habs : lookupKey rest k = none := by
        apply lookupKey_eq_none_of_not_mem
        rw [← hp]; exact hnd.1
      have h2 : eraseKey rest k = rest := eraseKey_of_absent rest k habs
      show (List.filter _ (p :: rest)).length + 1 = (p :: rest).length
      rw [List.filter_cons_of_neg (by simp [hp])]
      simp only [eraseKey] at h2
      rw [h2]
      simp
    · simp [lookupKey, hp] at h
      have h2 := ih hnd.2 h
      show (List.filter _ (p :: rest)).length + 1 = (p :: rest).length
      rw [List.filter_cons_of_pos (by simp [hp])]
      simp only [eraseKey] at h2
      simp only [List.length_cons]
      omega

theorem lookupKey_eq_none_iff {β : Type} (l : List (String × β)) (k : String) :
    lookupKey l k = none ↔ k ∉ l.map Prod.fst := by
  constructor
  · intro h hmem
    induction l with
    | nil => simp at hmem
    | cons p rest ih =>
      by_cases hp : p.1 = k
      · simp [lookupKey, hp] at h
      · simp [lookupKey, hp] at h
        simp only [List.map_cons, List.mem_cons] at hmem
        rcases hmem with hmem | hmem
        · exact hp hmem.symm
        · exact ih h hmem
  · exact lookupKey_eq_none_of_not_mem l k

theorem lookupKey_tail_none {β : Type} (l : List (String × β)) (k : String)
    (h : lookupKey l k = none) : lookupKey l.tail k = none := by
  cases l with
  | nil => rfl
  | cons p rest =>
    by_cases hp : p.1 = k
    · simp [lookupKey, hp] at h
    · simpa [lookupKey, hp] using h

theorem lookupKey_eraseKey_none {β : Type} (l : List (String × β)) (k k' : String)
    (h : lookupKey l k = none) : lookupKey (eraseKey l k') k = none := by
  rw [lookupKey_eq_none_iff] at h ⊢
  rw [map_fst_eraseKey]
  intro hmem
  exact h (List.mem_of_mem_filter hmem)

/-- A valid (non-expired) `get` hit returns the stored result, bumps the hit
counter, and moves the entry to the most-recent end. -/
theorem cacheGet_valid_hit {α : Type} (c : QueryCache α) (now : Nat) (q f : String)
    (entry : CacheEntry α) (hl : lookupKey c.cache (hashKey q f) = some entry)
    (hfresh : now - entry.timestamp ≤ c.ttl_seconds) :
    cacheGet now c q f =
      (some entry.result,
       { c with cache := eraseKey c.cache (hashKey q f) ++ [(hashKey q f, entry)],
                hits := c.hits + 1 }) := by
  have hc : ¬ (c.ttl_seconds < now - entry.timestamp) := by omega
  simp only [cacheGet, hl, moveToEnd, if_neg hc]

/-- `set` on an already-present key: in-place overwrite then move to the
most-recent end; nothing is evicted. -/
theorem cacheSet_present {α : Type} (c : QueryCache α) (now : Nat) (q : String)
    (v : α) (f : String) (e : CacheEntry α)
    (hl : lookupKey c.cache (hashKey q f) = some e) :
    cacheSet now c q v f =
      { c with cache := eraseKey c.cache (hashKey q f) ++ [(hashKey q f, ⟨v, now⟩)] } := by
  simp only [cacheSet, hl, Option.isNone_some, Bool.false_eq_true, and_false, if_false,
    moveToEnd, lookupKey_aset, eraseKey_aset]

/-- `set` of a new key while below capacity: append at the most-recent end,
no eviction. -/
theorem cacheSet_new_under_capacity {α : Type} (c : QueryCache α) (now : Nat)
    (q : String) (v : α) (f : String)
    (hcap : ¬ c.maxsize ≤ c.cache.length)
    (hl : lookupKey c.cache (hashKey q f) = none) :
    cacheSet now c q v f =
      { c with cache := c.cache ++ [(hashKey q f, ⟨v, now⟩)] } := by
  simp only [cacheSet, if_neg (by simp [hcap] :
      ¬ (c.maxsize ≤ c.cache.length ∧ (lookupKey c.cache (hashKey q f)).isNone = true))]
  rw [aset_of_absent _ _ _ hl]
  simp only [moveToEnd, lookupKey_append_of_none _ _ _ hl, lookupKey, if_pos rfl,
    eraseKey_append, eraseKey_of_absent _ _ hl]
  simp [eraseKey]

/-- `set` of a new key at (or above) capacity: `popitem(last=False)` drops the
head — the oldest position — and the new entry is appended at the end. -/
theorem cacheSet_new_at_capacity {α : Type} (c : QueryCache α) (now : Nat)
    (q : String) (v : α) (f : String)
    (hcap : c.maxsize ≤ c.cache.length)
    (hl : lookupKey c.cache (hashKey q f) = none) :
    cacheSet now c q v f =
      { c with cache := c.cache.tail ++ [(hashKey q f, ⟨v, now⟩)] } := by
  have htail : lookupKey c.cache.tail (hashKey q f) = none := lookupKey_tail_none _ _ hl
  simp only [cacheSet, if_pos (by simp [hl, hcap] :
      (c.maxsize ≤ c.cache.length ∧ (lookupKey c.cache (hashKey q f)).isNone = true))]
  rw [aset_of_absent _ _ _ htail]
  simp only [moveToEnd, lookupKey_append_of_none _ _ _ htail, lookupKey, if_pos rfl,
    eraseKey_append, eraseKey_of_absent _ _ htail]
  simp [eraseKey]

theorem length_eraseKey_lt_of_present {β : Type} (l : List (String × β)) (k : String)
    (v : β) (h : lookupKey l k = some v) : (eraseKey l k).length < l.length := by
  induction l with
  | nil => simp [lookupKey] at h
  | cons p rest ih =>
    by_cases hp : p.1 = k
    · show (List.filter _ (p :: rest)).length < (p :: rest).length
      rw [List.filter_cons_of_neg (by simp [hp])]
      have := List.length_filter_le (fun x : String × β => x.1 ≠ k) rest
      simp only [List.length_cons]
      omega
    · simp [lookupKey, hp] at h
      have h2 := ih h
      show (List.filter _ (p :: rest)).length < (p :: rest).length
      rw [List.filter_cons_of_pos (by simp [hp])]
      simp only [eraseKey] at h2
      simp only [List.length_cons]
      omega

/-- **C9.** For every query cache with `maxsize ≥ 1`, the size bound
`len(cache) ≤ maxsize` is preserved by `get`, `set` and `clear`; a `set` of an
already-present key never grows the cache; a `set` of a new key below capacity
adds exactly one entry and evicts nothing; and a `set` of a new key at
capacity keeps the size exactly at `maxsize` (one entry evicted, one
inserted).  (`Nodup` over the stored keys is the `OrderedDict`
well-formedness of the model: a Python dict cannot hold a key twice.) -/
theorem C9_cache_size_invariant {α : Type} :
    (∀ (c : QueryCache α) (now : Nat) (q f : String),
        c.cache.length ≤ c.maxsize →
        ((cacheGet now c q f).2).cache.length ≤ c.maxsize) ∧
    (∀ (c : QueryCache α) (now : Nat) (q : String) (v : α) (f : String),
        1 ≤ c.maxsize → c.cache.length ≤ c.maxsize →
        (cacheSet now c q v f).cache.length ≤ c.maxsize) ∧
    (∀ c : QueryCache α, (cacheClear c).cache.length ≤ c.maxsize) ∧
    (∀ (c : QueryCache α) (now : Nat) (q : String) (v : α) (f : String)
        (e : CacheEntry α),
        (c.cache.map Prod.fst).Nodup →
        lookupKey c.cache (hashKey q f) = some e →
        (cacheSet now c q v f).cache.length = c.cache.length) ∧
    (∀ (c : QueryCache α) (now : Nat) (q : String) (v : α) (f : String),
        c.cache.length < c.maxsize →
        lookupKey c.cache (hashKey q f) = none →
        (cacheSet now c q v f).cache.length = c.cache.length + 1) ∧
    (∀ (c : QueryCache α) (now : Nat) (q : String) (v : α) (f : String),
        1 ≤ c.maxsize → c.cache.length = c.maxsize →
        lookupKey c.cache (hashKey q f) = none →
        (cacheSet now c q v f).cache.length = c.maxsize) := by
  refine ⟨?_, ?_, ?_, ?_, ?_, ?_⟩
  · intro c now q f hle
    rcases h : lookupKey c.cache (hashKey q f) with _ | entry
    · simp only [cacheGet, h]
      exact hle
    · by_cases hexp : c.ttl_seconds < now - entry.timestamp
      · simp only [cacheGet, h, if_pos hexp]
        have := List.length_filter_le (fun x : String × CacheEntry α => x.1 ≠ hashKey q f)
          c.cache
        simp only [eraseKey]
        omega
      · simp only [cacheGet, h, if_neg hexp, moveToEnd]
        have h2 := length_eraseKey_lt_of_present c.cache (hashKey q f) entry h
        simp only [List.length_append, List.length_cons, List.length_nil]
        omega
  · intro c now q v f hmax hle
    rcases h : lookupKey c.cache (hashKey q f) with _ | e
    · by_cases hcap : c.maxsize ≤ c.cache.length
      · rw [cacheSet_new_at_capacity c now q v f hcap h]
        have hne : c.cache ≠ [] := by
          intro hnil
          rw [hnil] at hcap
          simp at hcap
          omega
        simp only [List.length_append, List.length_tail, List.length_cons,
          List.length_nil]
        have : 1 ≤ c.cache.length := List.length_pos.mpr hne
        omega
      · rw [cacheSet_new_under_capacity c now q v f hcap h]
        simp only [List.length_append, List.length_cons, List.length_nil]
        omega
    · rw [cacheSet_present c now q v f e h]
      have h2 := length_eraseKey_lt_of_present c.cache (hashKey q f) e h
      simp only [List.length_append, List.length_cons, List.length_nil]
      omega
  · intro c
    simp [cacheClear]
  · intro c now q v f e hnd h
    rw [cacheSet_present c now q v f e h]
    have h2 := length_eraseKey_of_present c.cache (hashKey q f) e hnd h
    simp only [List.length_append, List.length_cons, List.length_nil]
    omega
  · intro c now q v f hcap h
    rw [cacheSet_new_under_capacity c now q v f (by omega) h]
    simp
  · intro c now q v f hmax hlen h
    rw [cacheSet_new_at_capacity c now q v f (by omega) h]
    have hne : c.cache ≠ [] := by
      intro hnil
      rw [hnil] at hlen
      simp at hlen
      omega
    have : 1 ≤ c.cache.length := List.length_pos.mpr hne
    simp only [List.length_append, List.length_tail, List.length_cons, List.length_nil]
    omega

/-- Witness for C9: a concrete full cache of capacity 1; a `set` of a new key
keeps the size at `maxsize = 1`. -/
theorem C9_cache_size_invariant_witness :
    (1 : Nat) ≤ 1 ∧
    (cacheSet 5 (⟨[("a:f", ⟨1, 0⟩)], 1, 100, 0, 0⟩ : QueryCache Nat) "b" 2 "f").cache.length
      = 1 :=
  ⟨le_refl 1,
   C9_cache_size_invariant.2.2.2.2.2 ⟨[("a:f", ⟨1, 0⟩)], 1, 100, 0, 0⟩ 5 "b" 2 "f"
     (by decide) (by decide) (by decide)⟩

/-- **C2.** The query cache's eviction discipline is true LRU where "used"
covers both reads and writes: the list order of the model is the recency
order, because (a) a valid `get` hit and (b) a `set` of a present key both
re-append the touched entry at the most-recent end while preserving the
relative order of all other entries, and new entries are appended at the end;
(c) a `set` of a new key at capacity removes exactly one entry, namely the
head — the least recently touched by any get-hit or set; and (d) in
particular, get-accessing the oldest entry immediately before an
eviction-triggering insert prevents that entry from being the one evicted
(with at least two entries present, as a one-entry LRU cache must evict its
only entry). -/
theorem C2_true_lru_eviction {α : Type} :
    (∀ (c : QueryCache α) (now : Nat) (q f : String) (entry : CacheEntry α),
        lookupKey c.cache (hashKey q f) = some entry →
        now - entry.timestamp ≤ c.ttl_seconds →
        ((cacheGet now c q f).2).cache
          = eraseKey c.cache (hashKey q f) ++ [(hashKey q f, entry)]) ∧
    (∀ (c : QueryCache α) (now : Nat) (q : String) (v : α) (f : String)
        (e : CacheEntry α),
        lookupKey c.cache (hashKey q f) = some e →
        (cacheSet now c q v f).cache
          = eraseKey c.cache (hashKey q f) ++ [(hashKey q f, ⟨v, now⟩)]) ∧
    (∀ (c : QueryCache α) (now : Nat) (q : String) (v : α) (f : String),
        c.maxsize ≤ c.cache.length →
        lookupKey c.cache (hashKey q f) = none →
        (cacheSet now c q v f).cache
          = c.cache.tail ++ [(hashKey q f, ⟨v, now⟩)]) ∧
    (∀ (c : QueryCache α) (now now2 : Nat) (q0 f0 q : String) (v : α) (f : String)
        (k0 : String) (e0 : CacheEntry α) (rest : List (String × CacheEntry α)),
        (c.cache.map Prod.fst).Nodup →
        c.cache = (k0, e0) :: rest →
        rest ≠ [] →
        hashKey q0 f0 = k0 →
        now - e0.timestamp ≤ c.ttl_seconds →
        lookupKey c.cache (hashKey q f) = none →
        k0 ∈ ((cacheSet now2 ((cacheGet now c q0 f0).2) q v f).cache.map Prod.fst)) := by
  refine ⟨?_, ?_, ?_, ?_⟩
  · intro c now q f entry hl hfresh
    rw [cacheGet_valid_hit c now q f entry hl hfresh]
  · intro c now q v f e hl
    rw [cacheSet_present c now q v f e hl]
  · intro c now q v f hcap hl
    rw [cacheSet_new_at_capacity c now q v f hcap hl]
  · intro c now now2 q0 f0 q v f k0 e0 rest hnd hc hrest hk0 hfresh hnew
    have hnd0 : k0 ∉ rest.map Prod.fst := by
      rw [hc] at hnd
      simp only [List.map_cons, List.nodup_cons] at hnd
      exact hnd.1
    have hlook0 : lookupKey c.cache k0 = some e0 := by
      rw [hc]; simp [lookupKey]
    have hkey_ne : ¬ k0 = hashKey q f := by
      intro heq
      rw [heq] at hlook0
      rw [hlook0] at hnew
      exact Option.noConfusion hnew
    have herase : eraseKey c.cache k0 = rest := by
      rw [hc]
      show List.filter _ _ = rest
      rw [List.filter_cons_of_neg (by simp)]
      exact eraseKey_of_absent rest k0 (lookupKey_eq_none_of_not_mem rest k0 hnd0)
    have hget := cacheGet_valid_hit c now q0 f0 e0 (by rw [hk0]; exact hlook0)
      (by exact hfresh)
    have hnew_rest : lookupKey rest (hashKey q f) = none := by
      rw [hc] at hnew
      simpa [lookupKey, hkey_ne] using hnew
    have hc1 : ((cacheGet now c q0 f0).2).cache = rest ++ [(k0, e0)] := by
      rw [hget]
      show eraseKey c.cache (hashKey q0 f0) ++ [(hashKey q0 f0, e0)] = _
      rw [hk0, herase]
    have hc1max : ((cacheGet now c q0 f0).2).maxsize = c.maxsize := by
      rw [hget]
    have hnew1 : lookupKey ((cacheGet now c q0 f0).2).cache (hashKey q f) = none := by
      rw [hc1, lookupKey_append_of_none _ _ _ hnew_rest]
      simp [lookupKey, hkey_ne]
    by_cases hcap : ((cacheGet now c q0 f0).2).maxsize
        ≤ ((cacheGet now c q0 f0).2).cache.length
    · rw [cacheSet_new_at_capacity _ now2 q v f hcap hnew1]
      rcases rest with _ | ⟨r, rs⟩
      · exact absurd rfl hrest
      · rw [hc1]
        simp
    · rw [cacheSet_new_under_capacity _ now2 q v f hcap hnew1]
      rw [hc1]
      simp

/-- Witness for C2: a two-entry cache at capacity; reading the old entry
`"a:f"` right before inserting the new key `"c:f"` evicts `"b:f"` instead,
so `"a:f"` survives. -/
theorem C2_true_lru_eviction_witness :
    "a:f" ∈ ((cacheSet 6
        ((cacheGet 5 (⟨[("a:f", ⟨1, 0⟩), ("b:f", ⟨2, 3⟩)], 2, 100, 0, 0⟩ : QueryCache Nat)
          "a" "f").2) "c" 9 "f").cache.map Prod.fst) :=
  C2_true_lru_eviction.2.2.2
    ⟨[("a:f", ⟨1, 0⟩), ("b:f", ⟨2, 3⟩)], 2, 100, 0, 0⟩ 5 6 "a" "f" "c" 9 "f"
    "a:f" ⟨1, 0⟩ [("b:f", ⟨2, 3⟩)]
    (by decide) (by decide) (by decide) (by decide) (by decide) (by decide)

/-! ## Rate limiter (`packages/rag/gemini_service.py`, `check_rate_limit`)

One Firestore document per user id in the `gemini_rate_limits` collection.
`current_hour = int(now.timestamp() // 3600)` is passed in directly as the
hour-bucket number.  The `firstRequestAt`/`lastRequestAt` server timestamps
carry no control-flow weight and are omitted.  The `except` fail-open path
(storage unreachable ⇒ allow) is not modelled: the association-list store
cannot fail. -/

/-- A `gemini_rate_limits` document. -/
structure RateRecord where
  userId : String
  requestsThisHour : Nat
  currentHour : Nat
  totalRequests : Nat
deriving DecidableEq, Repr

/-- `uid = user_id or "system"` (Python truthiness: `None` and `""` both fall
back to `"system"`). -/
def resolveUid : Option String → String
  | none => "system"
  | some s => if s = "" then "system" else s

/-- `GeminiService.check_rate_limit`: create-on-first-request; reset on a new
hour bucket; reject with no mutation at quota; otherwise increment both
counters.  Returns the allow/deny flag and the updated store. -/
def check_rate_limit (maxPerHour currentHour : Nat)
    (store : List (String × RateRecord)) (user_id : Option String) :
    Bool × List (String × RateRecord) :=
  let uid := resolveUid user_id
  match lookupKey store uid with
  | none =>
    (true, aset store uid ⟨uid, 1, currentHour, 1⟩)
  | some r =>
    if currentHour ≠ r.currentHour then
      (true, aset store uid
        { r with requestsThisHour := 1, currentHour := currentHour,
                 totalRequests := r.totalRequests + 1 })
    else if r.requestsThisHour ≥ maxPerHour then
      (false, store)
    else
      (true, aset store uid
        { r with requestsThisHour := r.requestsThisHour + 1,
                 totalRequests := r.totalRequests + 1 })

/-- The store after `k` consecutive requests by the same user in the same
hour bucket, starting from `store0`. -/
def rateAfter (maxPerHour hour : Nat) (user : Option String)
    (store0 : List (String × RateRecord)) : Nat → List (String × RateRecord)
  | 0 => store0
  | k + 1 =>
    (check_rate_limit maxPerHour hour (rateAfter maxPerHour hour user store0 k) user).2

theorem rateAfter_lookup (maxPerHour hour : Nat) (user : Option String)
    (store0 : List (String × RateRecord))
    (h0 : lookupKey store0 (resolveUid user) = none) :
    ∀ k, k ≤ maxPerHour → 1 ≤ k →
      lookupKey (rateAfter maxPerHour hour user store0 k) (resolveUid user)
        = some ⟨resolveUid user, k, hour, k⟩ := by
  intro k
  induction k with
  | zero => omega
  | succ k ih =>
    intro hk _
    rcases Nat.eq_zero_or_pos k with hk0 | hkpos
    · subst hk0
      simp only [rateAfter, check_rate_limit, h0]
      exact lookupKey_aset store0 (resolveUid user) _
    · have hlk := ih (by omega) hkpos
      simp only [rateAfter, check_rate_limit, hlk]
      rw [if_neg (by simp), if_neg (by simp; omega)]
      exact lookupKey_aset _ (resolveUid user) _

/-- **C4.** For `maxPerHour = N ≥ 1` and a user with no prior record:
requests `1..N` in one hour bucket are all allowed and each sets
`requestsThisHour` and `totalRequests` to the running count `k`; request
`N+1` in the same bucket is rejected with the store returned unchanged; and
the first request in a different hour bucket is allowed, with
`requestsThisHour` reset to `1`, `currentHour` updated, and `totalRequests`
still incremented. -/
theorem C4_rate_limiter (maxPerHour hour : Nat) (user : Option String)
    (store0 : List (String × RateRecord))
    (h0 : lookupKey store0 (resolveUid user) = none)
    (hN : 1 ≤ maxPerHour) :
    (∀ k, k < maxPerHour →
      (check_rate_limit maxPerHour hour
        (rateAfter maxPerHour hour user store0 k) user).1 = true) ∧
    (∀ k, 1 ≤ k → k ≤ maxPerHour →
      lookupKey (rateAfter maxPerHour hour user store0 k) (resolveUid user)
        = some ⟨resolveUid user, k, hour, k⟩) ∧
    (check_rate_limit maxPerHour hour
        (rateAfter maxPerHour hour user store0 maxPerHour) user
      = (false, rateAfter maxPerHour hour user store0 maxPerHour)) ∧
    (∀ hour2, hour2 ≠ hour →
      (check_rate_limit maxPerHour hour2
          (rateAfter maxPerHour hour user store0 maxPerHour) user).1 = true ∧
      lookupKey (check_rate_limit maxPerHour hour2
          (rateAfter maxPerHour hour user store0 maxPerHour) user).2 (resolveUid user)
        = some ⟨resolveUid user, 1, hour2, maxPerHour + 1⟩) := by
  refine ⟨?_, ?_, ?_, ?_⟩
  · intro k hk
    rcases Nat.eq_zero_or_pos k with hk0 | hkpos
    · subst hk0
      simp only [rateAfter, check_rate_limit, h0]
    · have hlk := rateAfter_lookup maxPerHour hour user store0 h0 k (by omega) hkpos
      simp only [check_rate_limit, hlk]
      rw [if_neg (by simp), if_neg (by simp; omega)]
  · intro k hk1 hk2
    exact rateAfter_lookup maxPerHour hour user store0 h0 k hk2 hk1
  · have hlk := rateAfter_lookup maxPerHour hour user store0 h0 maxPerHour (le_refl _) hN
    simp only [check_rate_limit, hlk]
    rw [if_neg (by simp), if_pos (by simp)]
  · intro hour2 hne
    have hlk := rateAfter_lookup maxPerHour hour user store0 h0 maxPerHour (le_refl _) hN
    simp only [check_rate_limit, hlk]
    rw [if_pos (by simpa using hne)]
    exact ⟨rfl, lookupKey_aset _ _ _⟩

/-- Witness for C4: `maxPerHour = 2`, anonymous user, empty store; after two
allowed requests the third in hour bucket 7 is rejected without mutation. -/
theorem C4_rate_limiter_witness :
    lookupKey ([] : List (String × RateRecord)) (resolveUid none) = none ∧
    check_rate_limit 2 7 (rateAfter 2 7 none [] 2) none = (false, rateAfter 2 7 none [] 2) :=
  ⟨rfl, (C4_rate_limiter 2 7 none [] rfl (by decide)).2.2.1⟩

/-! ## Response cache and generation orchestrator
(`packages/rag/gemini_service.py`)

The response cache is the `gemini_cache` Firestore collection, keyed by the
normalized query (`query.lower().strip()`), holding
`{query, response, cachedAt, hitCount}`.  `generate_answer` is the per-request
orchestrator.  The external Gemini call `model.generate_content` (including
the response-text extraction, whose failure raises `ValueError` into the same
`except` handler) is a parameter `genContent : String → Except String String`
whose error value is the Python exception's `str(e)`.  The helper
`check_rate_limit` / `get_cached_response` / `cache_response` calls swallow
their own storage exceptions in the source (fail-open), so the generation
call is the only raising stage inside `generate_answer`'s `try`. -/

/-- A `gemini_cache` document (the `response` field is taken as always
present, as written by `cache_response`). -/
structure ResponseDoc where
  query : String
  response : String
  cachedAt : Option Nat
  hitCount : Nat
deriving DecidableEq, Repr

/-- `GeminiService.get_cached_response`: normalized-query lookup with a
TTL guard (`age > timedelta(hours=ttl)`); a document without `cachedAt`
skips the TTL check.  Times are seconds. -/
def get_cached_response (ttl_hours now : Nat)
    (cache : List (String × ResponseDoc)) (query : String) : Option String :=
  let cache_key := pyStrip (pyLower query)
  match lookupKey cache cache_key with
  | none => none
  | some data =>
    match data.cachedAt with
    | some t => if ttl_hours * 3600 < now - t then none else some data.response
    | none => some data.response

/-- `GeminiService.cache_response`: merge-set the normalized-query document
and increment `hitCount`. -/
def cache_response (now : Nat) (cache : List (String × ResponseDoc))
    (query response : String) : List (String × ResponseDoc) :=
  let cache_key := pyStrip (pyLower query)
  let hc := match lookupKey cache cache_key with
    | none => 0
    | some d => d.hitCount
  aset cache cache_key ⟨query, response, some now, hc + 1⟩

/-- `GeminiService._build_rag_prompt`. -/
def build_rag_prompt (query context : String) : String :=
  "You are an expert agricultural advisor helping farmers with their questions. \nUse the following retrieved information from agricultural documents to answer the question accurately and helpfully.\n\nContext from agricultural knowledge base:\n"
  ++ context
  ++ "\n\nQuestion: " ++ query
  ++ "\n\nInstructions:\n- Provide a clear, practical answer based on the context above\n- If the context doesn\x27t contain relevant information, say so honestly\n- Focus on actionable advice that farmers can implement\n- Use simple, clear language\n- Cite specific sources when mentioning information\n\nAnswer:"

/-- `GeminiService._build_direct_prompt`. -/
def build_direct_prompt (query : String) : String :=
  "You are an expert agricultural advisor helping farmers with their questions about farming, crop management, pest control, and sustainable agriculture.\n\nQuestion: " ++ query
  ++ "\n\nInstructions:\n- Provide accurate, practical advice based on general agricultural knowledge\n- Focus on actionable guidance that farmers can implement\n- Use simple, clear language\n- If you\x27re uncertain about specific details, acknowledge the limitations\n- Recommend consulting local agricultural extension services for region-specific advice\n\nAnswer:"

/-- The dict returned by `generate_answer` (fields that a branch does not put
into its dict are `none`). -/
structure AnswerResult where
  answer : String
  source : String
  error : Option String
  cached : Option Bool
  generation_time_ms : Option Nat
deriving DecidableEq, Repr

/-- The Firestore-backed state that `generate_answer` reads and writes. -/
structure GeminiState where
  rateStore : List (String × RateRecord)
  respCache : List (String × ResponseDoc)
deriving DecidableEq, Repr

/-- `GeminiService.generate_answer`: rate-limit check first (mutating the
rate store), then the response-cache check (`if cached_response:` — an empty
cached string is falsy and treated as a miss), then prompt selection
(`if context:` — an empty context string is falsy and selects the direct
prompt), then generation, then the cache write; any exception from the
generation stage is converted to the generic apology result. `elapsed_ms`
stands for the measured wall-clock generation time. -/
def generate_answer (maxPerHour ttl_hours : Nat)
    (genContent : String → Except String String)
    (now currentHour elapsed_ms : Nat) (st : GeminiState) (query : String)
    (context : Option String) (user_id : Option String) (use_cache : Bool) :
    AnswerResult × GeminiState :=
  let rl := check_rate_limit maxPerHour currentHour st.rateStore user_id
  let st1 : GeminiState := { st with rateStore := rl.2 }
  if rl.1 = false then
    ({ answer := "Rate limit exceeded. Please try again in a few minutes.",
       source := "rate_limit", error := some "RATE_LIMIT_EXCEEDED",
       cached := none, generation_time_ms := none }, st1)
  else
    let cachedHit : Option String :=
      if use_cache then
        match get_cached_response ttl_hours now st1.respCache query with
        | some c => if c = "" then none else some c
        | none => none
      else none
    match cachedHit with
    | some c =>
      ({ answer := c, source := "cache", error := none, cached := some true,
         generation_time_ms := some 0 }, st1)
    | none =>
      let pr : String × String :=
        match context with
        | some ctx =>
          if ctx = "" then (build_direct_prompt query, "gemini_direct")
          else (build_rag_prompt query ctx, "gemini_with_rag")
        | none => (build_direct_prompt query, "gemini_direct")
      match genContent pr.1 with
      | Except.error e =>
        ({ answer := "I\x27m having trouble generating a response right now. Please try again.",
           source := "error", error := some e, cached := none,
           generation_time_ms := none }, st1)
      | Except.ok answer =>
        let st2 : GeminiState :=
          if use_cache then
            { st1 with respCache := cache_response now st1.respCache query answer }
          else st1
        ({ answer := answer, source := pr.2, error := none, cached := some false,
           generation_time_ms := some elapsed_ms }, st2)

/-- **C1 (counterexample).** The claim says `CacheCheck` precedes
`RateLimitCheck` and a cached request leaves the rate-limit record
untouched.  In the code the rate limit is checked *first*: here a request
whose normalized query has a valid response-cache entry is answered from the
cache (source `"cache"`, zero generation latency), yet the user's
rate-limit record is mutated from `requestsThisHour = 1` to `2`. -/
theorem C1_counterexample :
    (generate_answer 60 24 (fun _ => Except.ok "fresh") 200 5 7
        ⟨[("u", ⟨"u", 1, 5, 1⟩)],
         [("how to grow maize",
           ⟨"How to grow maize", "Cached agronomy answer", some 100, 3⟩)]⟩
        "How to grow maize" none (some "u") true).1.source = "cache" ∧
    (generate_answer 60 24 (fun _ => Except.ok "fresh") 200 5 7
        ⟨[("u", ⟨"u", 1, 5, 1⟩)],
         [("how to grow maize",
           ⟨"How to grow maize", "Cached agronomy answer", some 100, 3⟩)]⟩
        "How to grow maize" none (some "u") true).1.generation_time_ms = some 0 ∧
    (generate_answer 60 24 (fun _ => Except.ok "fresh") 200 5 7
        ⟨[("u", ⟨"u", 1, 5, 1⟩)],
         [("how to grow maize",
           ⟨"How to grow maize", "Cached agronomy answer", some 100, 3⟩)]⟩
        "How to grow maize" none (some "u") true).2.rateStore
      = [("u", ⟨"u", 2, 5, 2⟩)] := by decide

/-- **C1 (amended).** `generate_answer` performs `RateLimitCheck` *before*
`CacheCheck`: (1) a request within quota whose normalized query has a valid
(non-expired, non-empty) response-cache entry returns the cached answer with
source `"cache"` and zero generation latency, but only after consuming
rate-limit quota (`requestsThisHour` and `totalRequests` incremented);
(2) an over-quota request is rejected with source `"rate_limit"` even when a
cached answer exists, the state left unchanged. -/
theorem C1_amended_rate_limit_before_cache :
    (∀ (maxPerHour ttl_hours : Nat) (genContent : String → Except String String)
       (now currentHour elapsed_ms : Nat) (st : GeminiState) (query : String)
       (context : Option String) (user : Option String) (r : RateRecord)
       (d : ResponseDoc) (t : Nat),
       lookupKey st.rateStore (resolveUid user) = some r →
       r.currentHour = currentHour →
       r.requestsThisHour < maxPerHour →
       lookupKey st.respCache (pyStrip (pyLower query)) = some d →
       d.cachedAt = some t →
       now - t ≤ ttl_hours * 3600 →
       d.response ≠ "" →
       (generate_answer maxPerHour ttl_hours genContent now currentHour elapsed_ms st
           query context user true).1
         = ⟨d.response, "cache", none, some true, some 0⟩ ∧
       lookupKey (generate_answer maxPerHour ttl_hours genContent now currentHour
           elapsed_ms st query context user true).2.rateStore (resolveUid user)
         = some { r with requestsThisHour := r.requestsThisHour + 1,
                         totalRequests := r.totalRequests + 1 }) ∧
    (∀ (maxPerHour ttl_hours : Nat) (genContent : String → Except String String)
       (now currentHour elapsed_ms : Nat) (st : GeminiState) (query : String)
       (context : Option String) (user : Option String) (r : RateRecord),
       lookupKey st.rateStore (resolveUid user) = some r →
       r.currentHour = currentHour →
       maxPerHour ≤ r.requestsThisHour →
       (generate_answer maxPerHour ttl_hours genContent now currentHour elapsed_ms st
           query context user true).1.source = "rate_limit" ∧
       (generate_answer maxPerHour ttl_hours genContent now currentHour elapsed_ms st
           query context user true).2 = st) := by
  constructor
  · intro maxPerHour ttl_hours genContent now currentHour elapsed_ms st query context
      user r d t hr hhour hq hd hat httl hne
    have hrl : check_rate_limit maxPerHour currentHour st.rateStore user
        = (true, aset st.rateStore (resolveUid user)
            { r with requestsThisHour := r.requestsThisHour + 1,
                     totalRequests := r.totalRequests + 1 }) := by
      simp only [check_rate_limit, hr]
      rw [if_neg (by omega), if_neg (by omega)]
    have hgc : get_cached_response ttl_hours now st.respCache query = some d.response := by
      simp only [get_cached_response, hd, hat]
      rw [if_neg (by omega)]
    simp only [generate_answer, hrl, hgc, if_neg hne]
    refine ⟨rfl, ?_⟩
    exact lookupKey_aset _ _ _
  · intro maxPerHour ttl_hours genContent now currentHour elapsed_ms st query context
      user r hr hhour hq
    have hrl : check_rate_limit maxPerHour currentHour st.rateStore user
        = (false, st.rateStore) := by
      simp only [check_rate_limit, hr]
      rw [if_neg (by omega), if_pos (by omega)]
    simp only [generate_answer, hrl]
    exact ⟨rfl, rfl⟩

/-- Witness for the amended C1: the same concrete state as the
counterexample; the cached answer is served with zero latency and the quota
counter moves from 1 to 2. -/
theorem C1_amended_rate_limit_before_cache_witness :
    (generate_answer 60 24 (fun _ => Except.ok "fresh") 200 5 7
        ⟨[("u", ⟨"u", 1, 5, 1⟩)],
         [("how to grow maize",
           ⟨"How to grow maize", "Cached agronomy answer", some 100, 3⟩)]⟩
        "How to grow maize" none (some "u") true).1
      = ⟨"Cached agronomy answer", "cache", none, some true, some 0⟩ ∧
    lookupKey (generate_answer 60 24 (fun _ => Except.ok "fresh") 200 5 7
        ⟨[("u", ⟨"u", 1, 5, 1⟩)],
         [("how to grow maize",
           ⟨"How to grow maize", "Cached agronomy answer", some 100, 3⟩)]⟩
        "How to grow maize" none (some "u") true).2.rateStore (resolveUid (some "u"))
      = some ⟨"u", 2, 5, 2⟩ :=
  C1_amended_rate_limit_before_cache.1 60 24 (fun _ => Except.ok "fresh") 200 5 7
    ⟨[("u", ⟨"u", 1, 5, 1⟩)],
     [("how to grow maize",
       ⟨"How to grow maize", "Cached agronomy answer", some 100, 3⟩)]⟩
    "How to grow maize" none (some "u") ⟨"u", 1, 5, 1⟩
    ⟨"How to grow maize", "Cached agronomy answer", some 100, 3⟩ 100
    (by decide) rfl (by decide) (by decide) rfl (by decide) (by decide)

/-- **C6 (counterexample).** When the generation stage raises, the result
does have the terminal `"error"` source tag and the generic apology as the
answer, and no exception propagates — but the dict handed back to the caller
carries the raw stringified exception in its `"error"` field (the claim says
the result never contains internal error detail beyond a high-level
message). -/
theorem C6_counterexample :
    (generate_answer 60 24
        (fun _ => Except.error
          "ResourceExhausted: 429 Quota exceeded for project cropsense-dev")
        200 5 7 ⟨[], []⟩ "How to grow maize" none none true).1
      = ⟨"I\x27m having trouble generating a response right now. Please try again.",
         "error",
         some "ResourceExhausted: 429 Quota exceeded for project cropsense-dev",
         none, none⟩ := by decide

/-- **C6 (amended).** Any failure of the generation stage (the only raising
stage inside `generate_answer`'s `try`) yields a result with terminal source
tag `"error"` and the fixed generic apology as the user-visible answer — the
exception is not propagated — but the result additionally carries the
stringified exception message verbatim in its `error` field. -/
theorem C6_amended_generic_error_result :
    ∀ (maxPerHour ttl_hours : Nat) (e : String)
      (now currentHour elapsed_ms : Nat) (st : GeminiState) (query : String)
      (context : Option String) (user : Option String) (use_cache : Bool),
      (check_rate_limit maxPerHour currentHour st.rateStore user).1 = true →
      (use_cache = true → get_cached_response ttl_hours now st.respCache query = none) →
      (generate_answer maxPerHour ttl_hours (fun _ => Except.error e) now currentHour
          elapsed_ms st query context user use_cache).1
        = ⟨"I\x27m having trouble generating a response right now. Please try again.",
           "error", some e, none, none⟩ := by
  intro maxPerHour ttl_hours e now currentHour elapsed_ms st query context user
    use_cache hrl hmiss
  simp only [generate_answer]
  rw [if_neg (by simp [hrl])]
  cases use_cache with
  | false =>
    cases hctx : context with
    | none => simp
    | some ctx =>
      by_cases hc : ctx = ""
      · simp [hc]
      · simp [hc]
  | true =>
    rw [hmiss rfl]
    cases hctx : context with
    | none => simp
    | some ctx =>
      by_cases hc : ctx = ""
      · simp [hc]
      · simp [hc]

/-- Witness for the amended C6: a concrete failing generation call on an
empty state produces exactly the generic-apology error result. -/
theorem C6_amended_generic_error_result_witness :
    (generate_answer 60 24 (fun _ => Except.error "boom") 200 5 7 ⟨[], []⟩
        "q" none none true).1
      = ⟨"I\x27m having trouble generating a response right now. Please try again.",
         "error", some "boom", none, none⟩ :=
  C6_amended_generic_error_result 60 24 "boom" 200 5 7 ⟨[], []⟩ "q" none none true
    (by decide) (fun _ => by decide)

/-! ## Vector store batched upsert
(`packages/rag/vector_store.py`, `upsert_chunks_batch`)

A Firestore write batch is modelled as the list of documents staged in it;
`batch.commit()` either persists the staged batch (appending it to `store`,
the model of the collection's committed state) or raises, according to the
oracle `failsAt : Nat → Bool` indexed by commit number.  The Python function
returns only the `(successful, failed)` pair; the model also returns the
committed state so that persistence across a failing later commit can be
stated.  On an exception the source adds the in-flight `batch_count` to
`failed` and re-raises; the model's error value records the state at that
point. -/

/-- An element of `chunks_data` (keys `chunk_id`, `content`, `embedding`,
`metadata`; a missing or empty `chunk_id` is Python-falsy and the chunk is
skipped and counted failed). -/
structure ChunkData where
  chunk_id : Option String
  content : String
  embedding : List ℚ
  metadata : List (String × String)
deriving DecidableEq, Repr

/-- The Firestore document written for one chunk (`doc_data`; the
`SERVER_TIMESTAMP` fields carry no control-flow weight and are omitted). -/
structure DocData where
  id : String
  content : String
  embedding : List ℚ
  embeddingDim : Nat
  metadata : List (String × String)
deriving DecidableEq, Repr

/-- The state carried by the re-raised exception: batches already committed,
plus the `successful`/`failed` totals at the moment of the raise. -/
structure UpsertErr where
  persisted : List (List DocData)
  successful : Nat
  failed : Nat
deriving DecidableEq, Repr

/-- The `doc_data` dict built for a chunk. -/
def chunkDoc (c : ChunkData) (cid : String) : DocData :=
  ⟨cid, c.content, c.embedding, c.embedding.length, c.metadata⟩

/-- The `for chunk_data in chunks_data` loop plus the trailing
`if batch_count > 0` commit.  `batchRev` is the staged batch in reverse
(staging conses; a commit reverses), `commitIdx` numbers the commits for the
failure oracle. -/
def upsertLoop (L : Nat) (failsAt : Nat → Bool) :
    List ChunkData → List (List DocData) → List DocData → Nat → Nat → Nat → Nat →
    Except UpsertErr (List (List DocData) × Nat × Nat)
  | [], store, batchRev, batch_count, commitIdx, successful, failed =>
    if 0 < batch_count then
      if failsAt commitIdx then
        Except.error ⟨store, successful, failed + batch_count⟩
      else
        Except.ok (store ++ [batchRev.reverse], successful + batch_count, failed)
    else Except.ok (store, successful, failed)
  | c :: rest, store, batchRev, batch_count, commitIdx, successful, failed =>
    let cid := c.chunk_id.getD ""
    if cid = "" then
      upsertLoop L failsAt rest store batchRev batch_count commitIdx successful
        (failed + 1)
    else
      let batchRev2 := chunkDoc c cid :: batchRev
      let bc2 := batch_count + 1
      if L ≤ bc2 then
        if failsAt commitIdx then
          Except.error ⟨store, successful, failed + bc2⟩
        else
          upsertLoop L failsAt rest (store ++ [batchRev2.reverse]) [] 0 (commitIdx + 1)
            (successful + bc2) failed
      else
        upsertLoop L failsAt rest store batchRev2 bc2 commitIdx successful failed

/-- `VectorStore.upsert_chunks_batch` with commit limit `L`
(`settings.firestore_batch_size`). -/
def upsert_chunks_batch (L : Nat) (failsAt : Nat → Bool)
    (chunks_data : List ChunkData) :
    Except UpsertErr (List (List DocData) × Nat × Nat) :=
  if chunks_data.isEmpty then Except.ok ([], 0, 0)
  else upsertLoop L failsAt chunks_data [] [] 0 0 0 0

/-- Observable summary of a raising run: committed batch sizes and the two
totals at the raise. -/
def errSummary : Except UpsertErr (List (List DocData) × Nat × Nat) →
    Option (List Nat × Nat × Nat)
  | Except.error e => some (e.persisted.map List.length, e.successful, e.failed)
  | Except.ok _ => none

/-- 1200 chunks with valid ids, as in the spec's worked example. -/
def chunks1200 : List ChunkData :=
  (List.range 1200).map fun k =>
    { chunk_id := some ("c" ++ Nat.repr k), content := "", embedding := [],
      metadata := [] }

theorem upsertLoop_all_ok (L : Nat) (hL : 1 ≤ L) :
    ∀ (chunks : List ChunkData) (store : List (List DocData))
      (batchRev : List DocData) (bc cIdx succ fl : Nat),
      (∀ c ∈ chunks, c.chunk_id.getD "" ≠ "") →
      bc = batchRev.length → bc < L →
      ∃ nb : List (List DocData),
        upsertLoop L (fun _ => false) chunks store batchRev bc cIdx succ fl
          = Except.ok (store ++ nb, succ + bc + chunks.length, fl) ∧
        nb.length = (bc + chunks.length + L - 1) / L ∧
        (∀ b ∈ nb, b.length ≤ L) := by
  intro chunks
  induction chunks with
  | nil =>
    intro store batchRev bc cIdx succ fl _ hbc hlt
    rcases Nat.eq_zero_or_pos bc with h0 | hpos
    · subst h0
      refine ⟨[], by simp [upsertLoop], ?_, by intro b hb; simp at hb⟩
      have hdiv : (L - 1) / L = 0 := Nat.div_eq_of_lt (by omega)
      simp [hdiv]
    · refine ⟨[batchRev.reverse], ?_, ?_, ?_⟩
      · simp [upsertLoop, hpos]
      · have hdiv : (bc + L - 1) / L = 1 :=
          Nat.div_eq_of_lt_le (by omega) (by omega)
        simp [hdiv]
      · intro b hb
        simp at hb
        subst hb
        simp
        omega
  | cons c rest ih =>
    intro store batchRev bc cIdx succ fl hvalid hbc hlt
    have hcid : ¬ c.chunk_id.getD "" = "" := hvalid c (List.mem_cons_self c rest)
    have hvalid2 : ∀ x ∈ rest, x.chunk_id.getD "" ≠ "" :=
      fun x hx => hvalid x (List.mem_cons_of_mem c hx)
    by_cases hfull : L ≤ bc + 1
    · obtain ⟨nb2, hrun, hlen, hsz⟩ :=
        ih (store ++ [(chunkDoc c (c.chunk_id.getD "") :: batchRev).reverse]) []
          0 (cIdx + 1) (succ + (bc + 1)) fl hvalid2 rfl (by omega)
      refine ⟨(chunkDoc c (c.chunk_id.getD "") :: batchRev).reverse :: nb2, ?_, ?_, ?_⟩
      · simp only [upsertLoop, if_neg hcid, if_pos hfull, Bool.false_eq_true, if_false]
        rw [hrun]
        refine congrArg Except.ok (Prod.ext ?_ (Prod.ext ?_ rfl))
        · simp
        · simp only [List.length_cons]
          omega
      · simp only [List.length_cons, hlen]
        have harg : bc + (rest.length + 1) + L - 1 = (0 + rest.length + L - 1) + L := by
          omega
        simp only [List.length_cons, harg, Nat.add_div_right _ (by omega : 0 < L)]
      · intro b hb
        rcases List.mem_cons.mp hb with hb | hb
        · subst hb
          simp
          omega
        · exact hsz b hb
    · obtain ⟨nb, hrun, hlen, hsz⟩ :=
        ih store (chunkDoc c (c.chunk_id.getD "") :: batchRev) (bc + 1) cIdx succ fl
          hvalid2 (by simp [hbc]) (by omega)
      refine ⟨nb, ?_, ?_, hsz⟩
      · simp only [upsertLoop, if_neg hcid, if_neg hfull]
        rw [hrun]
        refine congrArg Except.ok (Prod.ext rfl (Prod.ext ?_ rfl))
        simp only [List.length_cons]
        omega
      · rw [hlen]
        congr 1
        simp only [List.length_cons]
        omega

set_option maxRecDepth 100000 in
/-- **C3 (theorem for the amended claim).** When every chunk has a valid id
and no commit fails, `upsert_chunks_batch` with limit `L ≥ 1` performs
exactly `⌈n/L⌉` commits, each of size at most `L`, and returns the totals
`(n, 0)`.  When the third commit of the spec's 1200-chunk/limit-500 example
fails, the run raises (no totals pair is returned): the first two committed
batches of 500 chunks each remain persisted, with `successful = 1000` and the
in-flight final batch of 200 counted as `failed` at the raise. -/
theorem C3_amended_batched_commits :
    (∀ (L : Nat) (chunks : List ChunkData), 1 ≤ L →
      (∀ c ∈ chunks, c.chunk_id.getD "" ≠ "") →
      ∃ store, upsert_chunks_batch L (fun _ => false) chunks
          = Except.ok (store, chunks.length, 0) ∧
        store.length = (chunks.length + L - 1) / L ∧
        (∀ b ∈ store, b.length ≤ L)) ∧
    errSummary (upsert_chunks_batch 500 (fun k => k == 2) chunks1200)
      = some ([500, 500], 1000, 200) := by
  constructor
  · intro L chunks hL hvalid
    rcases chunks with _ | ⟨c, rest⟩
    · refine ⟨[], by simp [upsert_chunks_batch], ?_, by simp⟩
      have hdiv : (L - 1) / L = 0 := Nat.div_eq_of_lt (by omega)
      simp [hdiv]
    · obtain ⟨nb, hrun, hlen, hsz⟩ :=
        upsertLoop_all_ok L hL (c :: rest) [] [] 0 0 0 0 hvalid rfl (by omega)
      refine ⟨nb, ?_, ?_, hsz⟩
      · simp only [upsert_chunks_batch, List.isEmpty_cons, Bool.false_eq_true, if_false]
        rw [hrun]
        simp
      · rw [hlen]
        congr 1
        omega
  · decide

/-- Witness for the amended C3 (its universally quantified success part):
7 valid chunks with commit limit 3 yield exactly `⌈7/3⌉ = 3` commits and
totals `(7, 0)`. -/
theorem C3_amended_batched_commits_witness :
    ∃ store,
      upsert_chunks_batch 3 (fun _ => false)
          ((List.range 7).map fun k =>
            { chunk_id := some ("c" ++ Nat.repr k), content := "", embedding := [],
              metadata := [] })
        = Except.ok (store, 7, 0) ∧
      store.length = 3 ∧ (∀ b ∈ store, b.length ≤ 3) := by
  obtain ⟨store, hrun, hlen, hsz⟩ :=
    C3_amended_batched_commits.1 3
      ((List.range 7).map fun k =>
        { chunk_id := some ("c" ++ Nat.repr k), content := "", embedding := [],
          metadata := [] })
      (by decide) (by decide)
  exact ⟨store, hrun, hlen, hsz⟩

set_option maxRecDepth 100000 in
/-- **C3 (counterexample).** With 1200 valid chunks and commit limit 500, a
failure of the third commit makes `upsert_chunks_batch` raise: the result is
an exception carrying `successful = 1000`, `failed = 200` (the in-flight
final batch) and the two persisted batches of 500 — no `(successful, failed)` totals pair is returned
to the caller, contradicting the claim's "accumulated and returned" for the
failing case. -/
theorem C3_counterexample :
    errSummary (upsert_chunks_batch 500 (fun k => k == 2) chunks1200)
      = some ([500, 500], 1000, 200) ∧
    (upsert_chunks_batch 500 (fun k => k == 2) chunks1200).isOk = false := by
  constructor
  · decide
  · decide

/-! ## Chunker (`packages/rag/ingestion.py`, `chunk_text_intelligent`)

A text item is `{"text", "page"}`; the source first splits the text on
blank-line boundaries (`re.split(r'\n\s*\n', text)`).  The model takes each
item's paragraph list (the split's output) directly — the claims are about
what happens after the split.  The source's `if not text.strip(): continue`
guard is subsumed: an all-whitespace item's paragraphs all strip to empty, so
the inner loop produces nothing either way.  The emitted chunk keeps the
buffer's paragraph list alongside the joined `text`, so that "contains an
unsplit oversized paragraph" can be stated; `text` is exactly the
`"\n\n".join` of `paras`. -/

/-- One entry of `text_items`: page number plus the blank-line-split
paragraph list of the page's text. -/
structure TextItem where
  page : Nat
  paras : List String
deriving DecidableEq, Repr

/-- One emitted chunk dict (`text`, `page`, `char_count`, `tokens`,
`chunkIndex`), with the ghost field `paras` recording the joined buffer. -/
structure Chunk where
  paras : List String
  text : String
  page : Nat
  char_count : Nat
  tokens : Nat
  chunkIndex : Nat
deriving DecidableEq, Repr

/-- `estimate_tokens`: `len(text) // 4`. -/
def estimate_tokens (text : String) : Nat := text.length / 4

/-- Flush the buffer as a chunk (`"\n\n".join(current_chunk)` plus the
tracked `current_chars`, estimated tokens and running index). -/
def mkChunk (buffer : List String) (page chars idx : Nat) : Chunk :=
  ⟨buffer, String.intercalate "\n\n" buffer, page, chars,
   estimate_tokens (String.intercalate "\n\n" buffer), idx⟩

/-- The overlap fragment: the tail of the last paragraph, truncated to at
most `overlapChars` characters (`overlap_text[-overlap_chars:]` when longer,
used only with `overlap_chars > 0`). -/
def overlapTail (overlapChars : Nat) (s : String) : String :=
  if overlapChars < s.length then String.mk (s.data.drop (s.data.length - overlapChars))
  else s

/-- One iteration of the `for para in paragraphs` loop.  State:
`(chunks, current_chunk, current_chars)`. -/
def stepPara (maxChars overlapChars page : Nat)
    (st : List Chunk × List String × Nat) (para0 : String) :
    List Chunk × List String × Nat :=
  let para := pyStrip para0
  if para.length = 0 then st
  else
    match st with
    | (chunks, current_chunk, current_chars) =>
      let para_chars := para.length
      if maxChars < current_chars + para_chars ∧ current_chunk ≠ [] then
        let chunks2 := chunks ++ [mkChunk current_chunk page current_chars chunks.length]
        if 0 < overlapChars then
          let overlap_text := overlapTail overlapChars (current_chunk.getLastD "")
          (chunks2, [overlap_text, para], overlap_text.length + para_chars)
        else
          (chunks2, [para], para_chars)
      else
        (chunks, current_chunk ++ [para], current_chars + para_chars)

/-- Process one text item: run the paragraph loop from an empty buffer, then
flush a trailing non-empty buffer. -/
def chunkItem (maxChars overlapChars : Nat) (chunks0 : List Chunk)
    (item : TextItem) : List Chunk :=
  let st := item.paras.foldl (stepPara maxChars overlapChars item.page) (chunks0, [], 0)
  if st.2.1 ≠ [] then
    st.1 ++ [mkChunk st.2.1 item.page st.2.2 st.1.length]
  else st.1

/-- `chunk_text_intelligent`: fold the item loop over all text items. -/
def chunk_text_intelligent (text_items : List TextItem)
    (maxChars overlapChars : Nat) : List Chunk :=
  text_items.foldl (chunkItem maxChars overlapChars) []

theorem overlapTail_length (k : Nat) (s : String) : (overlapTail k s).length ≤ k := by
  by_cases h : k < s.length
  · simp only [overlapTail, if_pos h]
    show (s.data.drop (s.data.length - k)).length ≤ k
    rw [List.length_drop]
    omega
  · simp only [overlapTail, if_neg h]
    omega

/-- The size/exception property of a single chunk: within the
`maxChars + overlapChars` bound, or carrying an unsplit paragraph longer
than `maxChars`. -/
def ChunkOk (maxChars overlapChars : Nat) (ch : Chunk) : Prop :=
  ch.char_count ≤ maxChars + overlapChars ∨ ∃ p ∈ ch.paras, maxChars < p.length

/-- The loop-state invariant: an empty buffer has a zero running count, and
the buffer itself satisfies the size/exception property. -/
def BufOk (maxChars overlapChars : Nat) (buf : List String) (chars : Nat) : Prop :=
  (buf = [] → chars = 0) ∧
  (chars ≤ maxChars + overlapChars ∨ ∃ p ∈ buf, maxChars < p.length)

theorem stepPara_invariant (maxChars overlapChars page : Nat)
    (chunks : List Chunk) (buf : List String) (chars : Nat) (para0 : String)
    (hch : ∀ ch ∈ chunks, ChunkOk maxChars overlapChars ch)
    (hbuf : BufOk maxChars overlapChars buf chars) :
    (∀ ch ∈ (stepPara maxChars overlapChars page (chunks, buf, chars) para0).1,
      ChunkOk maxChars overlapChars ch) ∧
    BufOk maxChars overlapChars
      (stepPara maxChars overlapChars page (chunks, buf, chars) para0).2.1
      (stepPara maxChars overlapChars page (chunks, buf, chars) para0).2.2 := by
  by_cases hpe : (pyStrip para0).length = 0
  · simp only [stepPara, if_pos hpe]
    exact ⟨hch, hbuf⟩
  · by_cases hflush : maxChars < chars + (pyStrip para0).length ∧ buf ≠ []
    · have hchunks2 : ∀ ch ∈ chunks ++ [mkChunk buf page chars chunks.length],
          ChunkOk maxChars overlapChars ch := by
        intro ch hmem
        rcases List.mem_append.mp hmem with hmem | hmem
        · exact hch ch hmem
        · simp at hmem
          subst hmem
          exact hbuf.2
      by_cases hovl : 0 < overlapChars
      · simp only [stepPara, if_neg hpe, if_pos hflush, if_pos hovl]
        refine ⟨hchunks2, by simp, ?_⟩
        by_cases hbig : (pyStrip para0).length ≤ maxChars
        · left
          have h := overlapTail_length overlapChars (buf.getLastD "")
          omega
        · right
          exact ⟨pyStrip para0, by simp, by omega⟩
      · simp only [stepPara, if_neg hpe, if_pos hflush, if_neg hovl]
        refine ⟨hchunks2, by simp, ?_⟩
        by_cases hbig : (pyStrip para0).length ≤ maxChars
        · left; omega
        · right
          exact ⟨pyStrip para0, by simp, by omega⟩
    · simp only [stepPara, if_neg hpe, if_neg hflush]
      refine ⟨hch, by simp, ?_⟩
      rcases Decidable.not_and_iff_or_not.mp hflush with hle | hemp
      · left
        omega
      · have hb0 : buf = [] := by
          by_contra hne
          exact hemp hne
        have hc0 : chars = 0 := hbuf.1 hb0
        subst hb0
        by_cases hbig : (pyStrip para0).length ≤ maxChars
        · left; omega
        · right
          exact ⟨pyStrip para0, by simp, by omega⟩

theorem foldl_stepPara_invariant (maxChars overlapChars page : Nat) :
    ∀ (paras : List String) (chunks : List Chunk) (buf : List String) (chars : Nat),
      (∀ ch ∈ chunks, ChunkOk maxChars overlapChars ch) →
      BufOk maxChars overlapChars buf chars →
      (∀ ch ∈ (paras.foldl (stepPara maxChars overlapChars page) (chunks, buf, chars)).1,
        ChunkOk maxChars overlapChars ch) ∧
      BufOk maxChars overlapChars
        (paras.foldl (stepPara maxChars overlapChars page) (chunks, buf, chars)).2.1
        (paras.foldl (stepPara maxChars overlapChars page) (chunks, buf, chars)).2.2 := by
  intro paras
  induction paras with
  | nil =>
    intro chunks buf chars hch hbuf
    exact ⟨hch, hbuf⟩
  | cons p ps ih =>
    intro chunks buf chars hch hbuf
    obtain ⟨hch2, hbuf2⟩ := stepPara_invariant maxChars overlapChars page chunks buf
      chars p hch hbuf
    simpa only [List.foldl_cons] using
      ih (stepPara maxChars overlapChars page (chunks, buf, chars) p).1
        (stepPara maxChars overlapChars page (chunks, buf, chars) p).2.1
        (stepPara maxChars overlapChars page (chunks, buf, chars) p).2.2 hch2 hbuf2

theorem chunkItem_ok (maxChars overlapChars : Nat) (chunks0 : List Chunk)
    (item : TextItem) (hch : ∀ ch ∈ chunks0, ChunkOk maxChars overlapChars ch) :
    ∀ ch ∈ chunkItem maxChars overlapChars chunks0 item,
      ChunkOk maxChars overlapChars ch := by
  obtain ⟨hc, hb⟩ := foldl_stepPara_invariant maxChars overlapChars item.page
    item.paras chunks0 [] 0 hch ⟨fun _ => rfl, Or.inl (by omega)⟩
  intro ch hmem
  simp only [chunkItem] at hmem
  by_cases hne : (item.paras.foldl (stepPara maxChars overlapChars item.page)
      (chunks0, [], 0)).2.1 ≠ []
  · rw [if_pos hne] at hmem
    rcases List.mem_append.mp hmem with hmem | hmem
    · exact hc ch hmem
    · simp at hmem
      subst hmem
      exact hb.2
  · rw [if_neg hne] at hmem
    exact hc ch hmem

/-- **C5.** For every input text-item list and parameters with
`overlapChars < maxChars`, every chunk emitted by `chunk_text_intelligent`
has `char_count ≤ maxChars + overlapChars`, except that a chunk may instead
contain a single unsplit paragraph that is itself longer than `maxChars` (the
documented oversized-paragraph exception: the paragraph is emitted whole in
one oversized chunk, never hard-split). -/
theorem C5_chunk_char_bound (text_items : List TextItem)
    (maxChars overlapChars : Nat) (hovl : overlapChars < maxChars) :
    ∀ ch ∈ chunk_text_intelligent text_items maxChars overlapChars,
      ch.char_count ≤ maxChars + overlapChars ∨
      ∃ p ∈ ch.paras, maxChars < p.length := by
  have hgen : ∀ (items : List TextItem) (chunks0 : List Chunk),
      (∀ ch ∈ chunks0, ChunkOk maxChars overlapChars ch) →
      ∀ ch ∈ items.foldl (chunkItem maxChars overlapChars) chunks0,
        ChunkOk maxChars overlapChars ch := by
    intro items
    induction items with
    | nil => intro chunks0 hch; exact hch
    | cons it its ih =>
      intro chunks0 hch
      simp only [List.foldl_cons]
      exact ih (chunkItem maxChars overlapChars chunks0 it)
        (chunkItem_ok maxChars overlapChars chunks0 it hch)
  intro ch hmem
  exact hgen text_items [] (fun _ h => absurd h (List.not_mem_nil _)) ch hmem

/-- Witness for C5: `maxChars = 5`, `overlapChars = 2`, one item whose first
paragraph has 6 characters.  The first emitted chunk is that oversized
paragraph, whole, and satisfies the stated disjunction via the exception
branch. -/
theorem C5_chunk_char_bound_witness :
    (2 : Nat) < 5 ∧
    ((⟨["aaaaaa"], "aaaaaa", 1, 6, 1, 0⟩ : Chunk).char_count ≤ 5 + 2 ∨
      ∃ p ∈ (⟨["aaaaaa"], "aaaaaa", 1, 6, 1, 0⟩ : Chunk).paras, 5 < p.length) :=
  ⟨by omega,
   C5_chunk_char_bound [⟨1, ["aaaaaa", "bb", "cc"]⟩] 5 2 (by omega)
     ⟨["aaaaaa"], "aaaaaa", 1, 6, 1, 0⟩ (by decide)⟩

/-! ## Chunk ids (`packages/rag/ingestion.py`, `generate_chunk_id`)

`f"{document_id}_chunk_{chunk_index:04d}"`: the decimal representation of the
index, left-padded with `'0'` to a width of at least 4, appended to
`{document_id}_chunk_`.  String comparison is Python's code-point
lexicographic order, i.e. Lean's `<` on `String`. -/

/-- Python's `{n:04d}`: decimal digits, zero-padded to width at least 4. -/
def format04 (n : Nat) : String :=
  let s := Nat.repr n
  String.mk (List.replicate (4 - s.length) '0' ++ s.data)

/-- `generate_chunk_id`. -/
def generate_chunk_id (document_id : String) (chunk_index : Nat) : String :=
  document_id ++ "_chunk_" ++ format04 chunk_index

/-- Most-significant-first decimal digit characters of `n` (the reference
shape that `Nat.repr` computes through `Nat.toDigitsCore`). -/
def decDigits (n : Nat) : List Char :=
  if n < 10 then [Nat.digitChar n]
  else decDigits (n / 10) ++ [Nat.digitChar (n % 10)]
termination_by n
decreasing_by
  exact Nat.div_lt_self (by omega) (by omega)

theorem decDigits_lt10 (n : Nat) (h : n < 10) : decDigits n = [Nat.digitChar n] := by
  rw [decDigits, if_pos h]

theorem decDigits_ge10 (n : Nat) (h : 10 ≤ n) :
    decDigits n = decDigits (n / 10) ++ [Nat.digitChar (n % 10)] := by
  rw [decDigits, if_neg (by omega)]

theorem toDigitsCore_decDigits :
    ∀ (fuel n : Nat) (acc : List Char), n < fuel →
      Nat.toDigitsCore 10 fuel n acc = decDigits n ++ acc := by
  intro fuel
  induction fuel with
  | zero => intro n acc h; omega
  | succ fuel ih =>
    intro n acc h
    by_cases h10 : n / 10 = 0
    · have hn : n < 10 := by omega
      simp only [Nat.toDigitsCore, h10, if_pos rfl]
      rw [decDigits_lt10 n hn, Nat.mod_eq_of_lt hn]
      rfl
    · simp only [Nat.toDigitsCore]
      rw [if_neg h10]
      have hlt : n / 10 < fuel := by
        have hself : n / 10 < n := Nat.div_lt_self (by omega) (by omega)
        omega
      rw [ih (n / 10) (Nat.digitChar (n % 10) :: acc) hlt,
        decDigits_ge10 n (by omega)]
      simp

theorem repr_eq_decDigits (n : Nat) : Nat.repr n = String.mk (decDigits n) := by
  show (Nat.toDigits 10 n).asString = _
  unfold Nat.toDigits
  rw [toDigitsCore_decDigits (n + 1) n [] (by omega)]
  simp [List.asString]

/-- The four padded digit characters of an index below 10000. -/
def digits4 (n : Nat) : List Char :=
  [Nat.digitChar (n / 1000 % 10), Nat.digitChar (n / 100 % 10),
   Nat.digitChar (n / 10 % 10), Nat.digitChar (n % 10)]

theorem format04_data (n : Nat) (h : n < 10000) : (format04 n).data = digits4 n := by
  have e1 : n / 10 / 10 = n / 100 := by omega
  have e2 : n / 100 / 10 = n / 1000 := by omega
  rcases Nat.lt_or_ge n 10 with h1 | h1
  · have hd : decDigits n = [Nat.digitChar n] := decDigits_lt10 n h1
    have q1 : n / 1000 % 10 = 0 := by omega
    have q2 : n / 100 % 10 = 0 := by omega
    have q3 : n / 10 % 10 = 0 := by omega
    have q4 : n % 10 = n := by omega
    simp only [format04, repr_eq_decDigits, hd, digits4, q1, q2, q3, q4]
    rfl
  · rcases Nat.lt_or_ge n 100 with h2 | h2
    · have hd : decDigits n
          = [Nat.digitChar (n / 10), Nat.digitChar (n % 10)] := by
        rw [decDigits_ge10 n h1, decDigits_lt10 (n / 10) (by omega)]
        rfl
      have q1 : n / 1000 % 10 = 0 := by omega
      have q2 : n / 100 % 10 = 0 := by omega
      have q3 : n / 10 % 10 = n / 10 := by omega
      simp only [format04, repr_eq_decDigits, hd, digits4, q1, q2, q3]
      rfl
    · rcases Nat.lt_or_ge n 1000 with h3 | h3
      · have hd : decDigits n
            = [Nat.digitChar (n / 100), Nat.digitChar (n / 10 % 10),
               Nat.digitChar (n % 10)] := by
          rw [decDigits_ge10 n h1, decDigits_ge10 (n / 10) (by omega), e1,
            decDigits_lt10 (n / 100) (by omega)]
          rfl
        have q1 : n / 1000 % 10 = 0 := by omega
        have q2 : n / 100 % 10 = n / 100 := by omega
        simp only [format04, repr_eq_decDigits, hd, digits4, q1, q2]
        rfl
      · have hd : decDigits n
            = [Nat.digitChar (n / 1000), Nat.digitChar (n / 100 % 10),
               Nat.digitChar (n / 10 % 10), Nat.digitChar (n % 10)] := by
          rw [decDigits_ge10 n h1, decDigits_ge10 (n / 10) (by omega), e1,
            decDigits_ge10 (n / 100) (by omega), e2,
            decDigits_lt10 (n / 1000) (by omega)]
          rfl
        have q1 : n / 1000 % 10 = n / 1000 := by omega
        simp only [format04, repr_eq_decDigits, hd, digits4, q1]
        rfl

theorem digitChar_strictMono :
    ∀ a, a < 10 → ∀ b, b < 10 → a < b → Nat.digitChar a < Nat.digitChar b := by
  decide

theorem list_lt_append_left (xs : List Char) {ys zs : List Char}
    (h : ys < zs) : xs ++ ys < xs ++ zs := by
  induction xs with
  | nil => exact h
  | cons a xs ih => exact List.Lex.cons ih

theorem digits4_lt (i j : Nat) (hij : i < j) (hj : j < 10000) :
    digits4 i < digits4 j := by
  simp only [digits4]
  by_cases h3 : i / 1000 % 10 < j / 1000 % 10
  · exact List.Lex.rel (digitChar_strictMono _ (by omega) _ (by omega) h3)
  · have e3 : i / 1000 % 10 = j / 1000 % 10 := by omega
    rw [e3]
    refine List.Lex.cons ?_
    by_cases h2 : i / 100 % 10 < j / 100 % 10
    · exact List.Lex.rel (digitChar_strictMono _ (by omega) _ (by omega) h2)
    · have e2 : i / 100 % 10 = j / 100 % 10 := by omega
      rw [e2]
      refine List.Lex.cons ?_
      by_cases h1 : i / 10 % 10 < j / 10 % 10
      · exact List.Lex.rel (digitChar_strictMono _ (by omega) _ (by omega) h1)
      · have e1 : i / 10 % 10 = j / 10 % 10 := by omega
        rw [e1]
        refine List.Lex.cons ?_
        have h0 : i % 10 < j % 10 := by omega
        exact List.Lex.rel (digitChar_strictMono _ (by omega) _ (by omega) h0)

theorem generate_chunk_id_lt (doc : String) (i j : Nat) (hij : i < j)
    (hj : j < 10000) : generate_chunk_id doc i < generate_chunk_id doc j := by
  rw [String.lt_iff_toList_lt]
  show (doc ++ "_chunk_" ++ format04 i).data < (doc ++ "_chunk_" ++ format04 j).data
  rw [String.data_append, String.data_append, String.data_append, String.data_append,
    List.append_assoc, List.append_assoc]
  apply list_lt_append_left
  apply list_lt_append_left
  rw [format04_data i (by omega), format04_data j hj]
  exact digits4_lt i j hij hj

/-- **C8 (counterexample).** `generate_chunk_id` is *not* strictly increasing
in the index for every pair `i < j`: the zero-padding only aligns indices
below 10000, and `"doc-123_chunk_9999" > "doc-123_chunk_10000"` in
code-point lexicographic order (`'9' > '1'`). -/
theorem C8_counterexample :
    ¬ (generate_chunk_id "doc-123" 9999 < generate_chunk_id "doc-123" 10000) ∧
    generate_chunk_id "doc-123" 10000 < generate_chunk_id "doc-123" 9999 := by
  constructor
  · rw [String.lt_iff_toList_lt]
    decide
  · rw [String.lt_iff_toList_lt]
    decide

/-- **C8 (theorem for the amended claim).** `generate_chunk_id` is
deterministic; `generate_chunk_id "doc-123" 5 = "doc-123_chunk_0005"`; the
index is zero-padded to at least 4 digits; and the ids are strictly
increasing in the index in code-point lexicographic order for indices below
10000 (where the 4-digit padding makes lexicographic order agree with
numeric order — the counterexample shows this fails at 10000). -/
theorem C8_amended_chunk_ids :
    (∀ (d1 d2 : String) (i1 i2 : Nat), d1 = d2 → i1 = i2 →
      generate_chunk_id d1 i1 = generate_chunk_id d2 i2) ∧
    generate_chunk_id "doc-123" 5 = "doc-123_chunk_0005" ∧
    (∀ i : Nat, 4 ≤ (format04 i).length) ∧
    (∀ (doc : String) (i j : Nat), i < j → j < 10000 →
      generate_chunk_id doc i < generate_chunk_id doc j) := by
  refine ⟨?_, by decide, ?_, ?_⟩
  · intro d1 d2 i1 i2 h1 h2
    rw [h1, h2]
  · intro i
    have hlen : (format04 i).length
        = (4 - (Nat.repr i).length) + (Nat.repr i).length := by
      show (List.replicate (4 - (Nat.repr i).length) '0' ++ (Nat.repr i).data).length = _
      rw [List.length_append, List.length_replicate]
      rfl
    omega
  · exact generate_chunk_id_lt

/-- Witness for the amended C8: `5 < 7 < 10000` and the corresponding ids
compare strictly. -/
theorem C8_amended_chunk_ids_witness :
    (5 : Nat) < 7 ∧ (7 : Nat) < 10000 ∧
    generate_chunk_id "doc-123" 5 < generate_chunk_id "doc-123" 7 :=
  ⟨by omega, by omega, C8_amended_chunk_ids.2.2.2 "doc-123" 5 7 (by omega) (by omega)⟩

/-! ## Cosine similarity (`packages/rag/vector_store.py`, `_cosine_similarity`)

`float(np.dot(a, b) / (np.linalg.norm(a) * np.linalg.norm(b)))` with no guard
on the denominator.  `FloatM` models IEEE-754 doubles with exact rational
finite values (rounding is irrelevant here): `nan` and signed infinities
propagate as in IEEE, division by zero gives `inf` for a nonzero numerator
and `nan` for `0/0`, and `0 · ∞ = nan`.  Under numpy's default error state a
zero denominator emits only a `RuntimeWarning`, it does not raise.
`np.sqrt` enters only through `np.linalg.norm`; it is abstracted as a
parameter, and the only fact used is `sqrt 0 = 0`, which IEEE guarantees. -/

/-- IEEE-754-style value: `nan`, signed infinity, or an exact finite value. -/
inductive FloatM where
  | nan
  | inf (neg : Bool)
  | finite (val : ℚ)
deriving DecidableEq, Repr

/-- IEEE addition (exact on finite values). -/
def addF : FloatM → FloatM → FloatM
  | FloatM.nan, _ => FloatM.nan
  | _, FloatM.nan => FloatM.nan
  | FloatM.inf s1, FloatM.inf s2 => if s1 = s2 then FloatM.inf s1 else FloatM.nan
  | FloatM.inf s, FloatM.finite _ => FloatM.inf s
  | FloatM.finite _, FloatM.inf s => FloatM.inf s
  | FloatM.finite a, FloatM.finite b => FloatM.finite (a + b)

/-- IEEE multiplication (exact on finite values; `0 · ∞ = nan`). -/
def mulF : FloatM → FloatM → FloatM
  | FloatM.nan, _ => FloatM.nan
  | _, FloatM.nan => FloatM.nan
  | FloatM.inf s1, FloatM.inf s2 => FloatM.inf (xor s1 s2)
  | FloatM.inf s, FloatM.finite q =>
    if q = 0 then FloatM.nan else FloatM.inf (xor s (decide (q < 0)))
  | FloatM.finite q, FloatM.inf s =>
    if q = 0 then FloatM.nan else FloatM.inf (xor s (decide (q < 0)))
  | FloatM.finite a, FloatM.finite b => FloatM.finite (a * b)

/-- IEEE division (exact on finite values; `x/0 = ±∞` for `x ≠ 0`,
`0/0 = nan`, `∞/∞ = nan`, `x/∞ = 0`). -/
def divF : FloatM → FloatM → FloatM
  | FloatM.nan, _ => FloatM.nan
  | _, FloatM.nan => FloatM.nan
  | FloatM.inf _, FloatM.inf _ => FloatM.nan
  | FloatM.inf s, FloatM.finite q => FloatM.inf (xor s (decide (q < 0)))
  | FloatM.finite _, FloatM.inf _ => FloatM.finite 0
  | FloatM.finite a, FloatM.finite b =>
    if b = 0 then
      (if a = 0 then FloatM.nan else FloatM.inf (decide (a < 0)))
    else FloatM.finite (a / b)

/-- `np.dot` on 1-D arrays: sum of elementwise products. -/
def dotF (a b : List FloatM) : FloatM :=
  (List.zipWith mulF a b).foldl addF (FloatM.finite 0)

/-- The sum of squares under `np.linalg.norm` (the norm is `sqrt` of this). -/
def sumSquares (v : List FloatM) : FloatM :=
  (v.map fun x => mulF x x).foldl addF (FloatM.finite 0)

/-- `VectorStore._cosine_similarity`:
`np.dot(a, b) / (np.linalg.norm(a) * np.linalg.norm(b))`, with `np.sqrt`
passed as the parameter `sqrtF`. -/
def cosine_similarity (sqrtF : FloatM → FloatM) (a b : List FloatM) : FloatM :=
  divF (dotF a b) (mulF (sqrtF (sumSquares a)) (sqrtF (sumSquares b)))

/-- **C7.** The code performs the division unguarded: for the zero vector
`a = [0.0]` against `b = [1.0]` (either norm zero), the dot product and the
denominator are both `0.0` and the result is `nan` — not a runtime error
(numpy only warns) and not a score of `0.0`, contradicting the claim that
the implementation never yields any other value such as NaN.  The only
assumption on the abstracted `np.sqrt` is `sqrt 0 = 0`. -/
theorem C7_zero_norm_yields_nan (sqrtF : FloatM → FloatM)
    (hsqrt0 : sqrtF (FloatM.finite 0) = FloatM.finite 0) :
    cosine_similarity sqrtF [FloatM.finite 0] [FloatM.finite 1] = FloatM.nan := by
  have hdot : dotF [FloatM.finite 0] [FloatM.finite 1] = FloatM.finite 0 := by
    simp [dotF, mulF, addF]
  have hsa : sumSquares [FloatM.finite 0] = FloatM.finite 0 := by
    simp [sumSquares, mulF, addF]
  simp only [cosine_similarity, hdot, hsa, hsqrt0]
  rcases sqrtF (sumSquares [FloatM.finite 1]) with _ | s | q
  · rfl
  · simp [mulF, divF]
  · simp [mulF, divF]

/-- Witness for C7: with `sqrt` instantiated by any concrete function fixing
`0` (here the identity), the similarity of `[0.0]` and `[1.0]` evaluates to
`nan`. -/
theorem C7_zero_norm_yields_nan_witness :
    cosine_similarity (fun x => x) [FloatM.finite 0] [FloatM.finite 1] = FloatM.nan :=
  C7_zero_norm_yields_nan (fun x => x) rfl

/-! ## Retriever parameter defaulting (`packages/rag/retriever.py`,
`RetrieverService.retrieve`)

`k = top_k or self.top_k` and `threshold = min_score or
settings.similarity_threshold` use Python `or`, whose left operand is
discarded when falsy — which includes the explicit values `0` and `0.0`, not
just `None`.  The embedding client and the vector-store search are the
retriever's injected collaborators and appear as function parameters; the
score filter keeps results with `score >= threshold`. -/

/-- Python `x or default` for an optional `int` (both `None` and `0` are
falsy). -/
def pyOrNat : Option Nat → Nat → Nat
  | none, d => d
  | some v, d => if v = 0 then d else v

/-- Python `x or default` for an optional `float` (both `None` and `0.0` are
falsy). -/
def pyOrRat : Option ℚ → ℚ → ℚ
  | none, d => d
  | some v, d => if v = 0 then d else v

/-- One element of the `search` result list. -/
structure SearchResult where
  chunkId : String
  content : String
  score : ℚ
  metadata : List (String × String)
deriving DecidableEq, Repr

/-- `RetrieverService.retrieve`: default the parameters with Python `or`,
embed the query, search, then post-filter by the threshold. -/
def retrieve
    (search : List ℚ → Nat → Option (List (String × String)) → List SearchResult)
    (embed : String → List ℚ)
    (top_k_default : Nat) (similarity_threshold : ℚ)
    (query : String) (top_k : Option Nat)
    (filters : Option (List (String × String))) (min_score : Option ℚ) :
    List SearchResult :=
  let k := pyOrNat top_k top_k_default
  let threshold := pyOrRat min_score similarity_threshold
  let results := search (embed query) k filters
  results.filter fun r => threshold ≤ r.score

/-- **C10.** An explicitly provided `min_score = 0.0` or `top_k = 0` is
ignored: the call behaves exactly as if the parameter had been omitted, and
the configured defaults (`top_k_results`, `similarity_threshold`) are what
reach the search and the score filter — explicit zeros never take effect. -/
theorem C10_explicit_zero_params_ignored
    (search : List ℚ → Nat → Option (List (String × String)) → List SearchResult)
    (embed : String → List ℚ) (top_k_default : Nat) (similarity_threshold : ℚ)
    (query : String) (filters : Option (List (String × String))) :
    retrieve search embed top_k_default similarity_threshold query (some 0) filters
        (some 0)
      = retrieve search embed top_k_default similarity_threshold query none filters
          none ∧
    retrieve search embed top_k_default similarity_threshold query (some 0) filters
        (some 0)
      = (search (embed query) top_k_default filters).filter
          (fun r => similarity_threshold ≤ r.score) := by
  constructor
  · simp [retrieve, pyOrNat, pyOrRat]
  · simp [retrieve, pyOrNat, pyOrRat]
